import Mathlib

/-!
Shallow embedding of `bip/email/chunker.py` (chunking and reassembly engine).

Texts are modelled as `List Char` (Python `str`).  The external tokenizer
collaborator (`bip.utils.tokenize` / `detokenize` / `count_tokens`) is not part
of the repository's core: following the spec it is treated as an opaque codec,
so every definition that needs it takes it as an explicit function argument.
Fallible Python operations (`list[...]` lookups, `str.split(...)[1]`,
`range(_, _, 0)`) are modelled with `Option`: `none` is the raised exception.
-/

namespace Bip

/-- Python strings, modelled as lists of characters. -/
abbrev Text := List Char

/-! ### Python string primitives -/

/-- Index of the leftmost occurrence of `sep` in `s` (Python `s.find(sep)`,
`none` for not found). -/
def findSub (sep : Text) : Text → Option Nat
  | [] => if sep.isPrefixOf [] then some 0 else none
  | c :: rest =>
    if sep.isPrefixOf (c :: rest) then some 0
    else (findSub sep rest).map (· + 1)

/-- Whether `sep` occurs in `s` (Python `sep in s`). -/
def hasSub (sep s : Text) : Bool := (findSub sep s).isSome

/-- Python `s.split(sep)[0]`: the text before the first occurrence of `sep`
(all of `s` if `sep` does not occur). -/
def splitHead (sep s : Text) : Text :=
  match findSub sep s with
  | none => s
  | some i => s.take i

/-- Python `s.split(sep)[1]`: the text strictly between the end of the first
occurrence of `sep` and the start of the next one (or the end of `s`).
`none` models the `IndexError` raised when `sep` does not occur in `s`. -/
def splitSecond (sep s : Text) : Option Text :=
  match findSub sep s with
  | none => none
  | some i => some (splitHead sep (s.drop (i + sep.length)))

/-- Python `delimiter.join(chunks)`. -/
def joinText (delimiter : Text) (chunks : List Text) : Text :=
  List.intercalate delimiter chunks

/-! ### Data model (gmail message objects, chunk metadata) -/

/-- One entry of `message['payload']['headers']`. -/
structure MsgHeader where
  name : Text
  value : Text
deriving DecidableEq, Repr

/-- The slice of a gmail `Message` object that the chunker reads.
`bodyText` is the result of the external extraction
`get_message_text_from_payload(message['payload'])`. -/
structure Message where
  id : Text
  threadId : Text
  internalDate : Text
  headers : List MsgHeader
  bodyText : Text
deriving Repr

/-- `gmail.get_header_value`: value of the first header named `name`,
Python `None` modelled as `none`. -/
def get_header_value (headers : List MsgHeader) (name : Text) : Option Text :=
  (headers.find? (fun h => h.name == name)).map MsgHeader.value

/-- Python truthiness fallback `x if x else d` for an optional string:
both `None` and the empty string fall back to `d`. -/
def orDefault (x : Option Text) (d : Text) : Text :=
  match x with
  | none => d
  | some t => if t = [] then d else t

/-- Rendering of a Python value in an f-string: `None` prints as `"None"`. -/
def fstr (x : Option Text) : Text :=
  match x with
  | none => "None".toList
  | some t => t

/-- The metadata dict built by `_create_chunk_metadata`. -/
structure ChunkMetadata where
  subject : Text
  message_id : Text
  date : Text
  chunk_index : Nat
  thread_id : Text
  source : Text
  text : Text
deriving DecidableEq, Repr

/-- `chunker._create_chunk_metadata(chunk, message, chunk_index)`. -/
def _create_chunk_metadata (chunk : Text) (message : Message)
    (chunk_index : Nat) : ChunkMetadata :=
  let subject := get_header_value message.headers "Subject".toList
  let date := message.internalDate
  { subject := orDefault subject "No subject".toList
    message_id := message.id
    date := if date = [] then "No date".toList else date
    chunk_index := chunk_index
    thread_id := message.threadId
    source := orDefault subject "No subject".toList
    text := chunk }

/-! ### Enrichment -/

def CHUNK_HEADER_SEPARATOR : Text := "\n--DEBUT EXTRAIT--\n".toList

def CHUNK_FOOTER_SEPARATOR : Text := "\n--FIN EXTRAIT--\n".toList

/-- `chunker._enrich_chunk(chunk, message, index, total)`.  The locale-specific
date rendering (`strftime` on the parsed `internalDate`) happens outside the
chunk assembly; it is abstracted as the function argument `fmtDate`.
`index` and `total` are accepted and unused, exactly as in the source. -/
def _enrich_chunk (fmtDate : Text → Text) (chunk : Text) (message : Message)
    (_index _total : Nat) : Text :=
  let subject := fstr (get_header_value message.headers "Subject".toList)
  let sender := fstr (get_header_value message.headers "From".toList)
  let recipients := fstr (get_header_value message.headers "To".toList)
  let formatted_date := fmtDate message.internalDate
  "Sujet: ".toList ++ subject ++ CHUNK_HEADER_SEPARATOR
    ++ chunk ++ CHUNK_FOOTER_SEPARATOR
    ++ "envoyé par ".toList ++ sender ++ " à ".toList ++ recipients
    ++ " le ".toList ++ formatted_date

/-! ### Chunk splitting -/

/-- Python `range(start, stop, step)` for a positive step. -/
def rangeStep (start stop step : Nat) : List Nat :=
  if _h : 0 < step ∧ start < stop then
    start :: rangeStep (start + step) stop step
  else []
termination_by stop - start
decreasing_by omega

/-- `chunker._create_chunks(message, chunk_size)`, parametrised by the external
tokenizer codec.  `none` models the `ValueError` Python's `range` raises when
the step `chunk_size - chunk_size // 8` is zero (i.e. `chunk_size = 0`). -/
def _create_chunks {τ : Type} (tokenize : Text → List τ)
    (detokenize : List τ → Text) (message : Message) (chunk_size : Nat) :
    Option (List Text) :=
  let message_tokens := tokenize message.bodyText
  let chunk_overlap := chunk_size / 8
  let chunk_step := chunk_size - chunk_overlap
  if chunk_step = 0 then none
  else some ((rangeStep 0 message_tokens.length chunk_step).map
    (fun i => detokenize ((message_tokens.drop i).take chunk_size)))

/-- `chunker.cut_message(message, chunk_size)`, parametrised by the tokenizer
codec and the date formatter. -/
def cut_message {τ : Type} (tokenize : Text → List τ)
    (detokenize : List τ → Text) (fmtDate : Text → Text) (message : Message)
    (chunk_size : Nat := 256) : Option (List Text × List ChunkMetadata) :=
  match _create_chunks tokenize detokenize message chunk_size with
  | none => none
  | some chunks =>
    -- `if not chunks: return [], []` (the empty maps below also yield `([], [])`)
    let n := chunks.length
    let enriched_chunks :=
      (chunks.zip (List.range n)).map
        (fun ci => _enrich_chunk fmtDate ci.1 message ci.2 n)
    let chunks_metadatas :=
      (enriched_chunks.zip (List.range n)).map
        (fun ci => _create_chunk_metadata ci.1 message ci.2)
    some (enriched_chunks, chunks_metadatas)

/-! ### Glue engine -/

/-- Strict lexicographic comparison of Python strings (code-point order,
a proper prefix is smaller). -/
def textLt : Text → Text → Bool
  | [], [] => false
  | [], _ :: _ => true
  | _ :: _, [] => false
  | a :: as, b :: bs =>
    if a.toNat < b.toNat then true
    else if b.toNat < a.toNat then false
    else textLt as bs

/-- Python comparison of `(chunk_index, chunk_text)` tuples, as used by
`sorted(zip(chunk_indices, selected_chunks))`: by index first, ties broken by
comparing the chunk texts themselves. -/
def pairLe (a b : Nat × Text) : Bool :=
  if a.1 = b.1 then textLt a.2 b.2 || a.2 == b.2 else a.1 < b.1

/-- `pairLe` as a relation.  Python's `sorted` is a stable sort with respect
to this total preorder; it is modelled below by Mathlib's stable
`List.insertionSort` (any two stable sorts for the same total preorder
agree). -/
def pairLE (a b : Nat × Text) : Prop := pairLe a b = true

instance : DecidableRel pairLE :=
  fun a b => inferInstanceAs (Decidable (pairLe a b = true))

/-- The chunk-selection loop of `glue_chunks` (lines 163-168): walk the cleaned
chunks in the given (ranked) order, accepting greedily, and stop at the first
chunk that would push the running total past `max_tokens`. -/
def selectLoop (count_tokens : Text → Nat) (max_tokens : Nat) :
    Nat → List Text → List Text
  | _, [] => []
  | total_tokens, chunk :: rest =>
    if total_tokens + count_tokens chunk > max_tokens then []
    else chunk :: selectLoop count_tokens max_tokens
      (total_tokens + count_tokens chunk) rest

/-- The initial running total of `glue_chunks` (lines 158-161):
`count_tokens(header) + count_tokens(footer)` when `keep_headfooter`, else 0. -/
def glueInitTotal (count_tokens : Text → Nat) (keep_headfooter : Bool)
    (header_text footer_text : Text) : Nat :=
  if keep_headfooter then count_tokens header_text + count_tokens footer_text
  else 0

/-- The cleaning of one enriched chunk in `glue_chunks` (lines 152-154):
`chunk.split(CHUNK_HEADER_SEPARATOR)[1].split(CHUNK_FOOTER_SEPARATOR)[0]`.
`none` models the `IndexError` when the header marker is absent. -/
def cleanChunk (chunk : Text) : Option Text :=
  (splitSecond CHUNK_HEADER_SEPARATOR chunk).map
    (splitHead CHUNK_FOOTER_SEPARATOR)

/-- Collect a list of optional values, failing if any is `none`
(the Python list comprehension raises on the first bad element). -/
def allSome {α : Type} : List (Option α) → Option (List α)
  | [] => some []
  | none :: _ => none
  | some a :: rest => (allSome rest).map (a :: ·)

/-- `chunker.glue_chunks(enriched_chunks, chumk_metadatas, keep_headfooter,
max_tokens, delimiter)`, parametrised by the external `count_tokens`.
`none` models the `IndexError` raised on an empty chunk list, on a first chunk
without the footer marker, or on any chunk without the header marker. -/
def glue_chunks (count_tokens : Text → Nat) (enriched_chunks : List Text)
    (chumk_metadatas : List ChunkMetadata) (keep_headfooter : Bool := true)
    (max_tokens : Nat := 3000) (delimiter : Text := "\n---\n".toList) :
    Option Text :=
  match enriched_chunks with
  | [] => none
  | first :: _ =>
    let header_text := splitHead CHUNK_HEADER_SEPARATOR first
    match splitSecond CHUNK_FOOTER_SEPARATOR first with
    | none => none
    | some footer_text =>
      let chunk_indices := chumk_metadatas.map ChunkMetadata.chunk_index
      match allSome (enriched_chunks.map cleanChunk) with
      | none => none
      | some cleaned_chunks =>
        let total_tokens :=
          glueInitTotal count_tokens keep_headfooter header_text footer_text
        let selected_chunks :=
          selectLoop count_tokens max_tokens total_tokens cleaned_chunks
        let ordered_chunks :=
          (List.insertionSort pairLE (chunk_indices.zip selected_chunks)).map
            Prod.snd
        let header_out :=
          if keep_headfooter then header_text ++ CHUNK_HEADER_SEPARATOR else []
        let footer_out :=
          if keep_headfooter then CHUNK_FOOTER_SEPARATOR ++ footer_text else []
        some (header_out ++ joinText delimiter ordered_chunks ++ footer_out)

/-- `chunker.chunk_id(message_id, chunk_index)` for natural-number indices:
`f"{message_id}-{chunk_index}"`. -/
def chunk_id (message_id : Text) (chunk_index : Nat) : Text :=
  message_id ++ "-".toList ++ (Nat.repr chunk_index).toList

/-- The token slice underlying chunk number `k` of `_create_chunks`:
`message_tokens[k*chunk_step : k*chunk_step + chunk_size]`. -/
def chunkTokens {τ : Type} (tokens : List τ) (chunk_size k : Nat) : List τ :=
  (tokens.drop (k * (chunk_size - chunk_size / 8))).take chunk_size

/-! ### Lemmas about `rangeStep` and the splitter -/

theorem rangeStep_nil (start stop step : Nat)
    (h : ¬(0 < step ∧ start < stop)) : rangeStep start stop step = [] := by
  rw [rangeStep]
  simp [h]

theorem rangeStep_cons (start stop step : Nat)
    (h : 0 < step ∧ start < stop) :
    rangeStep start stop step = start :: rangeStep (start + step) stop step := by
  rw [rangeStep]
  simp [h]

/-- One step of the ceiling-division recurrence `⌈d/step⌉ = ⌈(d-step)/step⌉+1`. -/
theorem ceilDiv_succ_step (step d : Nat) (hstep : 0 < step) (hd : 0 < d) :
    (d + step - 1) / step = (d - step + step - 1) / step + 1 := by
  rcases le_or_lt step d with hle | hlt
  · have h : d + step - 1 = (d - step + step - 1) + step := by omega
    rw [h, Nat.add_div_right _ hstep]
  · have h0 : d - step = 0 := by omega
    rw [h0]
    have h1 : (d + step - 1) / step = 1 := by
      apply Nat.div_eq_of_lt_le <;> omega
    have h2 : (0 + step - 1) / step = 0 := Nat.div_eq_of_lt (by omega)
    rw [h1, h2]

theorem rangeStep_eq_map (step : Nat) (hstep : 0 < step) :
    ∀ (d start stop : Nat), stop - start = d →
      rangeStep start stop step =
        (List.range ((d + step - 1) / step)).map (fun k => start + k * step) := by
  intro d
  induction d using Nat.strong_induction_on with
  | _ d ih =>
    intro start stop hd
    by_cases hlt : start < stop
    · have hdpos : 0 < d := by omega
      rw [rangeStep_cons _ _ _ ⟨hstep, hlt⟩]
      rw [ih (d - step) (by omega) (start + step) stop (by omega)]
      rw [ceilDiv_succ_step step d hstep hdpos]
      rw [List.range_succ_eq_map]
      simp only [List.map_cons, List.map_map, Nat.zero_mul, Nat.add_zero]
      refine List.cons_eq_cons.mpr ⟨rfl, ?_⟩
      apply List.map_congr_left
      intro k _
      simp only [Function.comp_apply, Nat.succ_eq_add_one, Nat.succ_mul]
      ring
    · rw [rangeStep_nil _ _ _ (by omega)]
      have h0 : d = 0 := by omega
      have h1 : (d + step - 1) / step = 0 := by
        apply Nat.div_eq_of_lt
        omega
      rw [h1]
      simp

/-- For a positive `chunk_size`, the stride `chunk_size - chunk_size / 8`
is positive (so Python's `range` does not raise). -/
theorem chunk_step_pos (C : Nat) (hC : 0 < C) : 0 < C - C / 8 := by
  have := Nat.div_lt_self hC (by norm_num : 1 < 8)
  omega

/-- Closed form of `_create_chunks` for a positive `chunk_size`: the chunk
list is `[detokenize(tokens[k*step : k*step + C]) for k < ⌈L/step⌉]`. -/
theorem create_chunks_eq {τ : Type} (tokenize : Text → List τ)
    (detokenize : List τ → Text) (message : Message) (C : Nat) (hC : 0 < C) :
    _create_chunks tokenize detokenize message C =
      some ((List.range
          (((tokenize message.bodyText).length + (C - C / 8) - 1) / (C - C / 8))).map
        (fun k => detokenize (chunkTokens (tokenize message.bodyText) C k))) := by
  have hstep : 0 < C - C / 8 := chunk_step_pos C hC
  simp only [_create_chunks]
  rw [if_neg (by omega)]
  rw [rangeStep_eq_map (C - C / 8) hstep (tokenize message.bodyText).length 0
    (tokenize message.bodyText).length (by omega)]
  rw [List.map_map]
  congr 1
  apply List.map_congr_left
  intro k _
  simp [chunkTokens]

/-- A message object used to instantiate witnesses: its body tokenizes to
300 tokens under the witness tokenizer below. -/
def witMessage : Message :=
  { id := "m1".toList
    threadId := "t1".toList
    internalDate := "1680000000000".toList
    headers := [⟨"Subject".toList, "Hello".toList⟩,
                ⟨"From".toList, "a@b.c".toList⟩,
                ⟨"To".toList, "d@e.f".toList⟩]
    bodyText := List.replicate 300 'a' }

/-- Witness tokenizer: one token per character (a legal instance of the
external codec contract). -/
def charTokenize (t : Text) : List Nat := List.range t.length

/-- A constant date formatter for concrete instances. -/
def constDate (_ : Text) : Text := "lundi 1 janvier 2024".toList

/-- **C4**: for every message whose body tokenizes to `L` tokens and every
positive `chunk_size` `C`, `_create_chunks` produces exactly `⌈L / step⌉`
chunks, where `step = C - ⌊C/8⌋` — in particular `0` chunks when `L = 0` —
and chunk `k` is `detokenize(tokens[k*step : k*step + C])`, so the final
chunk may be shorter than `C` with no padding. -/
theorem C4_chunk_splitter_count {τ : Type} (tokenize : Text → List τ)
    (detokenize : List τ → Text) (message : Message) (C : Nat) (hC : 0 < C) :
    ∃ chunks, _create_chunks tokenize detokenize message C = some chunks ∧
      chunks.length =
        ((tokenize message.bodyText).length + (C - C / 8) - 1) / (C - C / 8) ∧
      ((tokenize message.bodyText).length = 0 → chunks = []) ∧
      ∀ k, (hk : k < chunks.length) →
        chunks.get ⟨k, hk⟩ =
          detokenize (chunkTokens (tokenize message.bodyText) C k) := by
  have hstep : 0 < C - C / 8 := chunk_step_pos C hC
  refine ⟨_, create_chunks_eq tokenize detokenize message C hC, ?_, ?_, ?_⟩
  · simp
  · intro hL
    rw [hL]
    have h0 : (0 + (C - C / 8) - 1) / (C - C / 8) = 0 :=
      Nat.div_eq_of_lt (by omega)
    rw [h0]
    simp
  · intro k hk
    simp

/-- Witness for C4, at the spec's concrete scenario: a 300-token body with
`chunk_size = 256` gives `step = 224` and `⌈300/224⌉ = 2` chunks. -/
theorem C4_chunk_splitter_count_witness :
    0 < 256 ∧
    ∃ chunks, _create_chunks charTokenize (fun _ => []) witMessage 256
        = some chunks ∧ chunks.length = 2 := by
  refine ⟨by norm_num, ?_⟩
  obtain ⟨chunks, h1, h2, -, -⟩ :=
    C4_chunk_splitter_count charTokenize (fun _ => []) witMessage 256
      (by norm_num)
  refine ⟨chunks, h1, ?_⟩
  rw [h2]
  have hlen : (charTokenize witMessage.bodyText).length = 300 := by
    show (List.range (List.replicate 300 'a').length).length = 300
    rw [List.length_range, List.length_replicate]
  rw [hlen]

/-- **C5**: for any token stream and positive chunk size `C`, if chunk `i` is
a full (untruncated) chunk of `C` tokens and chunk `i+1` exists, then the last
`⌊C/8⌋` tokens of chunk `i` equal the first `⌊C/8⌋` tokens of chunk `i+1`.
(`tokens` is the tokenized message body; chunk `k` of `_create_chunks` is the
detokenization of `chunkTokens tokens C k`, by `C4_chunk_splitter_count`.) -/
theorem C5_chunk_overlap {τ : Type} (tokens : List τ) (C i : Nat) (hC : 0 < C)
    (hfull : i * (C - C / 8) + C ≤ tokens.length)
    (hnext : (i + 1) * (C - C / 8) < tokens.length) :
    (chunkTokens tokens C i).length = C ∧
    C / 8 ≤ (chunkTokens tokens C (i + 1)).length ∧
    (chunkTokens tokens C i).drop (C - C / 8) =
      (chunkTokens tokens C (i + 1)).take (C / 8) := by
  have hov : C / 8 ≤ C := Nat.div_le_self C 8
  have hmul : (i + 1) * (C - C / 8) = i * (C - C / 8) + (C - C / 8) :=
    Nat.succ_mul i (C - C / 8)
  refine ⟨?_, ?_, ?_⟩
  · simp only [chunkTokens, List.length_take, List.length_drop]
    omega
  · simp only [chunkTokens, List.length_take, List.length_drop]
    omega
  · simp only [chunkTokens]
    rw [List.drop_take, List.drop_drop, List.take_take]
    have h1 : C - (C - C / 8) = C / 8 := by omega
    rw [h1, ← hmul, Nat.min_eq_left hov]

/-- Total token count of a list of chunks, counting each chunk separately. -/
def sumTokens (count_tokens : Text → Nat) (chunks : List Text) : Nat :=
  (chunks.map count_tokens).sum

/-- The selection loop accepts exactly a prefix of the cleaned chunks: every
accepted prefix fits the budget, and if anything is left out, the first
rejected chunk would have overflowed the budget. -/
theorem selectLoop_greedy (count_tokens : Text → Nat) (max_tokens : Nat) :
    ∀ (chunks : List Text) (total : Nat),
      ∃ k, k ≤ chunks.length ∧
        selectLoop count_tokens max_tokens total chunks = chunks.take k ∧
        (∀ j, j < k →
          total + sumTokens count_tokens (chunks.take (j + 1)) ≤ max_tokens) ∧
        (k < chunks.length →
          total + sumTokens count_tokens (chunks.take (k + 1)) > max_tokens) := by
  intro chunks
  induction chunks with
  | nil =>
    intro total
    exact ⟨0, Nat.le_refl 0, rfl, by omega, by simp⟩
  | cons c rest ih =>
    intro total
    by_cases hover : total + count_tokens c > max_tokens
    · refine ⟨0, by simp, ?_, by omega, ?_⟩
      · simp [selectLoop, hover]
      · intro _
        simpa [sumTokens] using hover
    · obtain ⟨k, hk, hsel, hok, hstop⟩ := ih (total + count_tokens c)
      refine ⟨k + 1, by simpa using hk, ?_, ?_, ?_⟩
      · simp [selectLoop, hover, hsel]
      · intro j hj
        cases j with
        | zero =>
          simp only [List.take_succ_cons, List.take_zero, sumTokens,
            List.map_cons, List.map_nil, List.sum_cons, List.sum_nil]
          omega
        | succ j' =>
          have h := hok j' (by omega)
          simp only [sumTokens, List.take_succ_cons, List.map_cons,
            List.sum_cons] at h ⊢
          omega
      · intro hlen
        have h := hstop (by simpa using hlen)
        simp only [sumTokens, List.take_succ_cons, List.map_cons,
          List.sum_cons] at h ⊢
        omega

/-- Sample chunk bodies whose token counts under `tenPerChar` are 50, 60 and
9000, realising the spec's concrete glue scenario. -/
def sampleBody50 : Text := List.replicate 5 'a'

def sampleBody60 : Text := List.replicate 6 'b'

def sampleBody9000 : Text := List.replicate 900 'c'

/-- A concrete instance of the external `count_tokens` collaborator:
ten tokens per character. -/
def tenPerChar (t : Text) : Nat := 10 * t.length

/-- A well-formed enriched chunk around `body`, with header text `S` and
footer text `F`. -/
def mkEnriched (body : Text) : Text :=
  "S".toList ++ CHUNK_HEADER_SEPARATOR ++ body ++ CHUNK_FOOTER_SEPARATOR
    ++ "F".toList

/-- A metadata record carrying chunk index `i` (the other fields are
irrelevant to the glue engine). -/
def mdAt (i : Nat) : ChunkMetadata :=
  { subject := "S".toList, message_id := "m".toList, date := "d".toList,
    chunk_index := i, thread_id := "t".toList, source := "S".toList,
    text := "x".toList }

/-- **C1**: the glue engine selects chunks greedily in ranked order: starting
the running total at `count_tokens(header) + count_tokens(footer)` when
`keep_headfooter` is true and at 0 otherwise (`glueInitTotal`), it accepts a
prefix of the cleaned chunks and stops at the first chunk whose token count
added to the running total exceeds `max_tokens`, discarding that chunk and
every later one; in particular, with cleaned-chunk token counts
`[50, 60, 9000]`, `max_tokens = 100` and `keep_headfooter = false`, exactly
the first chunk is selected. -/
theorem C1_greedy_budget_selection :
    (∀ (count_tokens : Text → Nat) (max_tokens : Nat) (keep_headfooter : Bool)
        (header_text footer_text : Text) (cleaned_chunks : List Text),
      ∃ k, k ≤ cleaned_chunks.length ∧
        selectLoop count_tokens max_tokens
            (glueInitTotal count_tokens keep_headfooter header_text
              footer_text) cleaned_chunks = cleaned_chunks.take k ∧
        (∀ j, j < k →
          glueInitTotal count_tokens keep_headfooter header_text footer_text +
            sumTokens count_tokens (cleaned_chunks.take (j + 1)) ≤
              max_tokens) ∧
        (k < cleaned_chunks.length →
          glueInitTotal count_tokens keep_headfooter header_text footer_text +
            sumTokens count_tokens (cleaned_chunks.take (k + 1)) >
              max_tokens)) ∧
    glue_chunks tenPerChar
      [mkEnriched sampleBody50, mkEnriched sampleBody60,
        mkEnriched sampleBody9000]
      [mdAt 0, mdAt 1, mdAt 2] false 100 "\n---\n".toList
      = some sampleBody50 :=
  ⟨fun count_tokens max_tokens keep_headfooter header_text footer_text
      cleaned_chunks =>
    selectLoop_greedy count_tokens max_tokens cleaned_chunks
      (glueInitTotal count_tokens keep_headfooter header_text footer_text),
    by decide⟩

/-- A one-character chunk body (10 tokens under `tenPerChar`). -/
def tinyBody : Text := "z".toList

/-- The selection loop never pushes the running total past the budget:
if the total is within budget on entry, it still is after adding the token
counts of all selected chunks. -/
theorem selectLoop_total_le (count_tokens : Text → Nat) (max_tokens : Nat) :
    ∀ (chunks : List Text) (total : Nat), total ≤ max_tokens →
      total + sumTokens count_tokens
          (selectLoop count_tokens max_tokens total chunks) ≤ max_tokens := by
  intro chunks
  induction chunks with
  | nil =>
    intro total h
    simpa [selectLoop, sumTokens] using h
  | cons c rest ih =>
    intro total h
    by_cases hover : total + count_tokens c > max_tokens
    · simpa [selectLoop, hover, sumTokens] using h
    · have hrec := ih (total + count_tokens c) (by omega)
      simp only [selectLoop, if_neg hover, sumTokens, List.map_cons,
        List.sum_cons] at hrec ⊢
      omega

/-- **C3 (amended)**: the budget bound holds for the quantities the code
actually counts: when the initial running total (header/footer token counts
if `keep_headfooter`, else 0) is within `max_tokens`, the initial total plus
the token counts of all selected chunks — each counted separately — is at
most `max_tokens`.  The re-tokenized output itself may exceed `max_tokens`:
the joining delimiters and the re-attached marker strings are never counted
(see the counterexample). -/
theorem C3_budget_amended (count_tokens : Text → Nat) (max_tokens : Nat)
    (keep_headfooter : Bool) (header_text footer_text : Text)
    (cleaned_chunks : List Text)
    (hinit : glueInitTotal count_tokens keep_headfooter header_text
        footer_text ≤ max_tokens) :
    glueInitTotal count_tokens keep_headfooter header_text footer_text +
      sumTokens count_tokens
        (selectLoop count_tokens max_tokens
          (glueInitTotal count_tokens keep_headfooter header_text footer_text)
          cleaned_chunks) ≤ max_tokens :=
  selectLoop_total_le count_tokens max_tokens cleaned_chunks _ hinit

/-- Witness for the amended C3: header and footer cost 10 tokens each,
budget 100; chunks of 50, 60 and 9000 tokens; the selected prefix is the
50-token chunk and `20 + 50 ≤ 100`. -/
theorem C3_budget_amended_witness :
    glueInitTotal tenPerChar true "S".toList "F".toList ≤ 100 ∧
    glueInitTotal tenPerChar true "S".toList "F".toList +
      sumTokens tenPerChar
        (selectLoop tenPerChar 100
          (glueInitTotal tenPerChar true "S".toList "F".toList)
          [sampleBody50, sampleBody60, sampleBody9000]) ≤ 100 :=
  ⟨by decide,
    C3_budget_amended tenPerChar 100 true "S".toList "F".toList
      [sampleBody50, sampleBody60, sampleBody9000] (by decide)⟩

/-- Counterexample to C3 as stated: with `count_tokens` counting one token
per character, two 48-token chunks fit a budget of 100 (48 + 48 = 96), but
the glued document also contains the uncounted 5-token delimiter, so its
re-tokenized count is 101 > 100. -/
theorem C3_budget_counterexample :
    glue_chunks List.length
        [mkEnriched (List.replicate 48 'a'), mkEnriched (List.replicate 48 'b')]
        [mdAt 0, mdAt 1] false 100 "\n---\n".toList =
      some (List.replicate 48 'a' ++ "\n---\n".toList ++
        List.replicate 48 'b') ∧
    (List.replicate 48 'a' ++ "\n---\n".toList ++
        List.replicate 48 'b').length > 100 :=
  ⟨by decide, by decide⟩

/-- **C10**: when even the first (highest-ranked) cleaned chunk would
overflow the budget — the initial running total plus its token count exceeds
`max_tokens` — `glue_chunks` selects zero chunks and returns a document with
no chunk bodies instead of raising: the empty string when `keep_headfooter`
is false, and `header ++ header-marker ++ footer-marker ++ footer` (still
emitted even if their token counts alone exceed `max_tokens`) when
`keep_headfooter` is true. -/
theorem C10_first_chunk_overflow (count_tokens : Text → Nat)
    (first : Text) (rest : List Text) (metas : List ChunkMetadata)
    (keep_headfooter : Bool) (max_tokens : Nat) (delimiter : Text)
    (footer_text c0 : Text) (cs : List Text)
    (hfoot : splitSecond CHUNK_FOOTER_SEPARATOR first = some footer_text)
    (hclean : allSome ((first :: rest).map cleanChunk) = some (c0 :: cs))
    (hover : glueInitTotal count_tokens keep_headfooter
        (splitHead CHUNK_HEADER_SEPARATOR first) footer_text +
        count_tokens c0 > max_tokens) :
    glue_chunks count_tokens (first :: rest) metas keep_headfooter max_tokens
        delimiter =
      some (if keep_headfooter then
        splitHead CHUNK_HEADER_SEPARATOR first ++ CHUNK_HEADER_SEPARATOR ++
          CHUNK_FOOTER_SEPARATOR ++ footer_text
      else []) := by
  simp only [glue_chunks, hfoot, hclean]
  have hsel : selectLoop count_tokens max_tokens
      (glueInitTotal count_tokens keep_headfooter
        (splitHead CHUNK_HEADER_SEPARATOR first) footer_text)
      (c0 :: cs) = [] := by
    simp [selectLoop, hover]
  rw [hsel]
  cases keep_headfooter <;> simp [joinText, List.intercalate]

/-- Witness for C10: one 50-token chunk plus a smaller 10-token one behind
it, budget 10, `keep_headfooter` true (header and footer cost 10 tokens each,
already past the budget): zero chunks selected, the skeleton document is
still returned. -/
theorem C10_first_chunk_overflow_witness :
    (splitSecond CHUNK_FOOTER_SEPARATOR (mkEnriched sampleBody50) =
        some "F".toList ∧
      allSome (([mkEnriched sampleBody50, mkEnriched tinyBody] :
          List Text).map cleanChunk) = some [sampleBody50, tinyBody] ∧
      glueInitTotal tenPerChar true
          (splitHead CHUNK_HEADER_SEPARATOR (mkEnriched sampleBody50))
          "F".toList + tenPerChar sampleBody50 > 10) ∧
    glue_chunks tenPerChar [mkEnriched sampleBody50, mkEnriched tinyBody]
        [mdAt 0, mdAt 1] true 10 "\n---\n".toList =
      some (if true then
        splitHead CHUNK_HEADER_SEPARATOR (mkEnriched sampleBody50) ++
          CHUNK_HEADER_SEPARATOR ++ CHUNK_FOOTER_SEPARATOR ++ "F".toList
      else []) :=
  ⟨⟨by decide, by decide, by decide⟩,
    C10_first_chunk_overflow tenPerChar (mkEnriched sampleBody50)
      [mkEnriched tinyBody] [mdAt 0, mdAt 1] true 10 "\n---\n".toList
      "F".toList sampleBody50 [tinyBody] (by decide) (by decide) (by decide)⟩

theorem splitSecond_eq_none_iff (sep s : Text) :
    splitSecond sep s = none ↔ hasSub sep s = false := by
  unfold splitSecond hasSub
  cases h : findSub sep s <;> simp

theorem cleanChunk_eq_none_iff (c : Text) :
    cleanChunk c = none ↔ hasSub CHUNK_HEADER_SEPARATOR c = false := by
  unfold cleanChunk
  rw [Option.map_eq_none']
  exact splitSecond_eq_none_iff _ _

theorem allSome_map_eq_none_iff {α β : Type} (f : α → Option β)
    (l : List α) : allSome (l.map f) = none ↔ ∃ c ∈ l, f c = none := by
  induction l with
  | nil => simp [allSome]
  | cons a rest ih =>
    cases h : f a with
    | none => simp [allSome, h]
    | some b => simp [allSome, h, Option.map_eq_none', ih]

/-- **C8 (amended)**: `glue_chunks` fails with an invalid-argument signal
exactly when `ranked_chunks` is empty, or some element lacks the header
marker, or the *first* element lacks the footer marker.  A missing footer
marker in a non-first element is *not* detected: that chunk's body silently
extends to the end of its text (see the counterexample). -/
theorem C8_failfast_amended (count_tokens : Text → Nat)
    (enriched_chunks : List Text) (chumk_metadatas : List ChunkMetadata)
    (keep_headfooter : Bool) (max_tokens : Nat) (delimiter : Text) :
    glue_chunks count_tokens enriched_chunks chumk_metadatas keep_headfooter
        max_tokens delimiter = none ↔
      enriched_chunks = [] ∨
      (∃ first rest, enriched_chunks = first :: rest ∧
        hasSub CHUNK_FOOTER_SEPARATOR first = false) ∨
      (∃ c ∈ enriched_chunks, hasSub CHUNK_HEADER_SEPARATOR c = false) := by
  cases enriched_chunks with
  | nil => simp [glue_chunks]
  | cons first rest =>
    rcases h1 : splitSecond CHUNK_FOOTER_SEPARATOR first with _ | foot
    · have hf : hasSub CHUNK_FOOTER_SEPARATOR first = false :=
        (splitSecond_eq_none_iff _ _).mp h1
      simp only [glue_chunks, h1]
      constructor
      · intro _
        exact Or.inr (Or.inl ⟨first, rest, rfl, hf⟩)
      · intro _
        trivial
    · rcases h2 : allSome ((first :: rest).map cleanChunk) with _ | cleaned
      · have hc : ∃ c ∈ first :: rest, cleanChunk c = none :=
          (allSome_map_eq_none_iff _ _).mp h2
        obtain ⟨c, hmem, hcn⟩ := hc
        simp only [glue_chunks, h1, h2]
        constructor
        · intro _
          exact Or.inr (Or.inr ⟨c, hmem, (cleanChunk_eq_none_iff c).mp hcn⟩)
        · intro _
          trivial
      · simp only [glue_chunks, h1, h2]
        constructor
        · intro h
          exact absurd h (by simp)
        · rintro (h | ⟨f', r', heq, hfoot⟩ | ⟨c, hmem, hhdr⟩)
          · exact absurd h (by simp)
          · obtain ⟨rfl, rfl⟩ : f' = first ∧ r' = rest := by
              constructor <;> [exact (List.cons.injEq _ _ _ _ ▸ heq).1.symm;
                exact (List.cons.injEq _ _ _ _ ▸ heq).2.symm]
            rw [(splitSecond_eq_none_iff _ _).mpr hfoot] at h1
            exact absurd h1 (by simp)
          · have : allSome ((first :: rest).map cleanChunk) = none :=
              (allSome_map_eq_none_iff _ _).mpr
                ⟨c, hmem, (cleanChunk_eq_none_iff c).mpr hhdr⟩
            rw [this] at h2
            exact absurd h2 (by simp)

/-- A chunk carrying the header marker but no footer marker. -/
def noFooterChunk : Text := "x".toList ++ CHUNK_HEADER_SEPARATOR ++ "y".toList

theorem textLt_trans : ∀ {a b c : Text}, textLt a b = true →
    textLt b c = true → textLt a c = true := by
  intro a
  induction a with
  | nil =>
    intro b c hab hbc
    match b, c with
    | [], _ => exact absurd hab (by simp [textLt])
    | _ :: _, [] => exact absurd hbc (by simp [textLt])
    | _ :: _, _ :: _ => simp [textLt]
  | cons x xs ih =>
    intro b c hab hbc
    match b, c with
    | [], _ => exact absurd hab (by simp [textLt])
    | _ :: _, [] => exact absurd hbc (by simp [textLt])
    | y :: ys, z :: zs =>
      simp only [textLt] at hab hbc ⊢
      by_cases h1 : x.toNat < y.toNat
      · by_cases h2 : y.toNat < z.toNat
        · simp [show x.toNat < z.toNat by omega]
        · by_cases h3 : z.toNat < y.toNat
          · rw [if_neg h2, if_pos h3] at hbc
            exact absurd hbc (by simp)
          · simp [show x.toNat < z.toNat by omega]
      · by_cases h4 : y.toNat < x.toNat
        · rw [if_neg h1, if_pos h4] at hab
          exact absurd hab (by simp)
        · by_cases h2 : y.toNat < z.toNat
          · simp [show x.toNat < z.toNat by omega]
          · by_cases h3 : z.toNat < y.toNat
            · rw [if_neg h2, if_pos h3] at hbc
              exact absurd hbc (by simp)
            · rw [if_neg h1, if_neg h4] at hab
              rw [if_neg h2, if_neg h3] at hbc
              rw [if_neg (by omega : ¬ x.toNat < z.toNat),
                if_neg (by omega : ¬ z.toNat < x.toNat)]
              exact ih hab hbc

theorem textLt_total : ∀ (a b : Text),
    textLt a b = true ∨ textLt b a = true ∨ a = b := by
  intro a
  induction a with
  | nil =>
    intro b
    match b with
    | [] => exact Or.inr (Or.inr rfl)
    | _ :: _ => exact Or.inl (by simp [textLt])
  | cons x xs ih =>
    intro b
    match b with
    | [] => exact Or.inr (Or.inl (by simp [textLt]))
    | y :: ys =>
      by_cases h1 : x.toNat < y.toNat
      · exact Or.inl (by simp [textLt, h1])
      · by_cases h2 : y.toNat < x.toNat
        · exact Or.inr (Or.inl (by simp [textLt, h2]))
        · have hxy : x = y :=
            Char.ext (UInt32.toNat.inj (show x.toNat = y.toNat by omega))
          subst hxy
          rcases ih ys with h | h | h
          · exact Or.inl (by simp [textLt, h])
          · exact Or.inr (Or.inl (by simp [textLt, h]))
          · exact Or.inr (Or.inr (by rw [h]))

instance : IsTrans (Nat × Text) pairLE where
  trans := by
    rintro ⟨i, s⟩ ⟨j, t⟩ ⟨k, u⟩ hab hbc
    simp only [pairLE, pairLe] at hab hbc ⊢
    by_cases hij : i = j
    · by_cases hjk : j = k
      · subst hij; subst hjk
        rw [if_pos rfl] at hab hbc ⊢
        simp only [Bool.or_eq_true, beq_iff_eq] at hab hbc ⊢
        rcases hab with hab | hab <;> rcases hbc with hbc | hbc
        · exact Or.inl (textLt_trans hab hbc)
        · subst hbc; exact Or.inl hab
        · subst hab; exact Or.inl hbc
        · subst hab; exact Or.inr hbc
      · subst hij
        rw [if_pos rfl] at hab
        rw [if_neg hjk] at hbc ⊢
        exact hbc
    · by_cases hjk : j = k
      · subst hjk
        rw [if_neg hij] at hab ⊢
        exact hab
      · rw [if_neg hij] at hab
        rw [if_neg hjk] at hbc
        simp only [decide_eq_true_eq] at hab hbc
        by_cases hik : i = k
        · omega
        · rw [if_neg hik]
          simp only [decide_eq_true_eq]
          omega

instance : IsTotal (Nat × Text) pairLE where
  total := by
    rintro ⟨i, s⟩ ⟨j, t⟩
    simp only [pairLE, pairLe]
    by_cases hij : i = j
    · subst hij
      rw [if_pos rfl, if_pos rfl]
      simp only [Bool.or_eq_true, beq_iff_eq]
      rcases textLt_total s t with h | h | h
      · exact Or.inl (Or.inl h)
      · exact Or.inr (Or.inl h)
      · exact Or.inl (Or.inr h)
    · rw [if_neg hij, if_neg (fun h => hij h.symm)]
      simp only [decide_eq_true_eq]
      omega

/-- **C2 (amended)**: the accepted chunks are joined in ascending order of
their `chunk_index` metadata values; ties between equal indices are broken by
Python's tuple comparison — i.e. by the lexicographic order of the chunk
bodies themselves — not by stable input (rank) order.  The reordering step is
a stable sort by `pairLE`, so its output is sorted under `pairLE` and is a
permutation of the index/chunk pairs; on accepted chunks carrying indices
`[3, 1, 4, 0]` the stitched output presents the bodies in index order
`[0, 1, 3, 4]`. -/
theorem C2_order_restoration_amended :
    (∀ (chunk_indices : List Nat) (selected_chunks : List Text),
      (List.insertionSort pairLE (chunk_indices.zip selected_chunks)).Sorted
          pairLE ∧
      List.Perm (List.insertionSort pairLE (chunk_indices.zip selected_chunks))
        (chunk_indices.zip selected_chunks)) ∧
    glue_chunks tenPerChar
        [mkEnriched "y".toList, mkEnriched "x".toList, mkEnriched "z".toList,
          mkEnriched "w".toList]
        [mdAt 3, mdAt 1, mdAt 4, mdAt 0] false 1000 "\n---\n".toList =
      some "w\n---\nx\n---\ny\n---\nz".toList :=
  ⟨fun chunk_indices selected_chunks =>
    ⟨List.sorted_insertionSort pairLE (chunk_indices.zip selected_chunks),
      List.perm_insertionSort pairLE (chunk_indices.zip selected_chunks)⟩,
    by decide⟩

theorem digitChar_ne_hyphen (n : Nat) : Nat.digitChar n ≠ '-' := by
  rcases Nat.lt_or_ge n 16 with h | h
  · interval_cases n <;> decide
  · have hstar : Nat.digitChar n = '*' := by
      unfold Nat.digitChar
      iterate 16 rw [if_neg (by omega)]
    rw [hstar]
    decide

theorem toDigitsCore_no_hyphen (b : Nat) : ∀ (fuel n : Nat) (acc : List Char),
    (∀ c ∈ acc, c ≠ '-') → ∀ c ∈ Nat.toDigitsCore b fuel n acc, c ≠ '-' := by
  intro fuel
  induction fuel with
  | zero =>
    intro n acc hacc c hc
    exact hacc c hc
  | succ fuel ih =>
    intro n acc hacc c hc
    simp only [Nat.toDigitsCore] at hc
    have hnew : ∀ d ∈ Nat.digitChar (n % b) :: acc, d ≠ '-' := by
      intro d hd
      rcases List.mem_cons.mp hd with h | h
      · rw [h]
        exact digitChar_ne_hyphen _
      · exact hacc d h
    by_cases h : n / b = 0
    · rw [if_pos h] at hc
      exact hnew c hc
    · rw [if_neg h] at hc
      exact ih (n / b) _ hnew c hc

/-- No character of the decimal rendering of a natural number is a
hyphen. -/
theorem repr_toList_no_hyphen (n : Nat) :
    ∀ c ∈ (Nat.repr n).toList, c ≠ '-' := by
  intro c hc
  have hrepr : (Nat.repr n).toList = Nat.toDigits 10 n := by
    rw [Nat.repr]
    exact List.toList_asString _
  rw [hrepr] at hc
  unfold Nat.toDigits at hc
  exact toDigitsCore_no_hyphen 10 (n + 1) n [] (by simp) c hc

theorem chunk_id_cons (m : Text) (i : Nat) :
    chunk_id m i = m ++ ('-' :: (Nat.repr i).toList) := by
  unfold chunk_id
  rw [List.append_assoc]
  rfl

/-- Distinct message ids always give distinct chunk ids, whatever the
indices, because the decimal index suffix contains no hyphen. -/
theorem chunk_id_injective (m1 m2 : Text) (i1 i2 : Nat) (hm : m1 ≠ m2) :
    chunk_id m1 i1 ≠ chunk_id m2 i2 := by
  intro heq
  rw [chunk_id_cons, chunk_id_cons] at heq
  have s1 : ('-' :: (Nat.repr i1).toList) <:+
      (m2 ++ ('-' :: (Nat.repr i2).toList)) := by
    rw [← heq]
    exact List.suffix_append m1 _
  have s2 : ('-' :: (Nat.repr i2).toList) <:+
      (m2 ++ ('-' :: (Nat.repr i2).toList)) := List.suffix_append _ _
  have hlen_total := congrArg List.length heq
  simp only [List.length_append, List.length_cons] at hlen_total
  rcases List.suffix_or_suffix_of_suffix s1 s2 with h | h
  · rcases List.suffix_cons_iff.mp h with h' | h'
    · have hlen : ('-' :: (Nat.repr i1).toList).length =
          ('-' :: (Nat.repr i2).toList).length := by rw [h']
      simp only [List.length_cons] at hlen
      exact hm (List.append_inj heq (by omega)).1
    · exact repr_toList_no_hyphen i2 '-'
        (h'.subset (List.mem_cons_self _ _)) rfl
  · rcases List.suffix_cons_iff.mp h with h' | h'
    · have hlen : ('-' :: (Nat.repr i2).toList).length =
          ('-' :: (Nat.repr i1).toList).length := by rw [h']
      simp only [List.length_cons] at hlen
      exact hm (List.append_inj heq (by omega)).1
    · exact repr_toList_no_hyphen i1 '-'
        (h'.subset (List.mem_cons_self _ _)) rfl

/-- **C9**: `chunk_id` is a pure, deterministic function producing
`"{message_id}-{index}"`, and for natural-number indices, pairs with
distinct message ids never produce colliding chunk ids, even when message
ids themselves contain hyphens. -/
theorem C9_chunk_id_identity :
    (∀ (message_id : Text) (chunk_index : Nat),
      chunk_id message_id chunk_index = chunk_id message_id chunk_index) ∧
    (∀ (m1 m2 : Text) (i1 i2 : Nat), m1 ≠ m2 →
      chunk_id m1 i1 ≠ chunk_id m2 i2) :=
  ⟨fun _ _ => rfl, chunk_id_injective⟩

/-- Witness for C9 on hyphenated message ids: `chunk_id "a" 11 = "a-11"` and
`chunk_id "a-1" 1 = "a-1-1"` do not collide. -/
theorem C9_chunk_id_identity_witness :
    ("a".toList : Text) ≠ "a-1".toList ∧
    chunk_id "a".toList 11 ≠ chunk_id "a-1".toList 1 :=
  ⟨by decide, C9_chunk_id_identity.2 "a".toList "a-1".toList 11 1 (by decide)⟩

/-- **C7**: for every message and positive `chunk_size`, `cut_message`
returns two sequences of equal length, index-aligned so that `metadatas[i]`
is derived from `enriched_chunks[i]` and the parent message with
`metadatas[i].chunk_index = i`; when the splitter yields zero chunks it
returns two empty sequences without raising. -/
theorem C7_cut_message_alignment {τ : Type} (tokenize : Text → List τ)
    (detokenize : List τ → Text) (fmtDate : Text → Text) (message : Message)
    (C : Nat) (hC : 0 < C) :
    ∃ E M, cut_message tokenize detokenize fmtDate message C = some (E, M) ∧
      E.length = M.length ∧
      (∀ i, (hi : i < M.length) →
        (M.get ⟨i, hi⟩).chunk_index = i ∧
        M.get ⟨i, hi⟩ = _create_chunk_metadata (E.getD i []) message i) ∧
      ((tokenize message.bodyText).length = 0 → E = [] ∧ M = []) := by
  have hcc := create_chunks_eq tokenize detokenize message C hC
  unfold cut_message
  rw [hcc]
  refine ⟨_, _, rfl, ?_, ?_, ?_⟩
  · simp
  · intro i hi
    simp only [List.length_map, List.length_zip, List.length_range,
      Nat.min_self] at hi
    constructor
    · simp only [List.get_eq_getElem, List.getElem_map, List.getElem_zip,
        List.getElem_range]
      simp [_create_chunk_metadata]
    · have hgd : ∀ (l : List Text) (j : Nat) (d : Text)
          (hj : j < l.length), l.getD j d = l.get ⟨j, hj⟩ := by
        intro l j d hj
        simp [List.getD_eq_getElem?_getD, List.getElem?_eq_getElem hj]
      rw [hgd _ i [] (by
        simp only [List.length_map, List.length_zip, List.length_range,
          Nat.min_self]
        exact hi)]
      simp only [List.get_eq_getElem, List.getElem_map, List.getElem_zip,
        List.getElem_range]
  · intro hL
    rw [hL]
    have h0 : (0 + (C - C / 8) - 1) / (C - C / 8) = 0 :=
      Nat.div_eq_of_lt (by have := chunk_step_pos C hC; omega)
    rw [h0]
    simp

/-- Witness for C7: the 300-token witness message at `chunk_size = 256`
yields sequences of equal length. -/
theorem C7_cut_message_alignment_witness :
    0 < 256 ∧
    ∃ E M, cut_message charTokenize (fun _ => []) constDate witMessage 256 =
        some (E, M) ∧ E.length = M.length := by
  refine ⟨by norm_num, ?_⟩
  obtain ⟨E, M, h1, h2, -, -⟩ :=
    C7_cut_message_alignment charTokenize (fun _ => []) constDate witMessage
      256 (by norm_num)
  exact ⟨E, M, h1, h2⟩

/-- When `sep` does not occur in `s`, Python's `s.split(sep)[0]` is `s`. -/
theorem splitHead_of_not_has (sep s : Text) (h : hasSub sep s = false) :
    splitHead sep s = s := by
  unfold splitHead
  unfold hasSub at h
  cases hfs : findSub sep s
  · rfl
  · rw [hfs] at h
    simp at h

/-- When the first occurrence of `sep` in `l ++ r` starts exactly at the end
of `l`, the text before it is `l`. -/
theorem splitHead_append (sep l r : Text)
    (h : findSub sep (l ++ r) = some l.length) :
    splitHead sep (l ++ r) = l := by
  unfold splitHead
  rw [h]
  exact List.take_left' rfl

/-- The header segment that `_enrich_chunk` places before the header marker:
`"Sujet: " + subject`. -/
def enrichHeaderSeg (message : Message) : Text :=
  "Sujet: ".toList ++ fstr (get_header_value message.headers "Subject".toList)

/-- The provenance footer segment that `_enrich_chunk` places after the
footer marker. -/
def enrichFooterSeg (fmtDate : Text → Text) (message : Message) : Text :=
  "envoyé par ".toList ++ fstr (get_header_value message.headers "From".toList)
    ++ " à ".toList ++ fstr (get_header_value message.headers "To".toList)
    ++ " le ".toList ++ fmtDate message.internalDate

/-- `_enrich_chunk` is the header segment, the header marker, and then the
chunk followed by the footer marker and the provenance segment. -/
theorem enrich_chunk_decomp (fmtDate : Text → Text) (chunk : Text)
    (message : Message) (index total : Nat) :
    _enrich_chunk fmtDate chunk message index total =
      enrichHeaderSeg message ++ CHUNK_HEADER_SEPARATOR ++
        (chunk ++ CHUNK_FOOTER_SEPARATOR ++ enrichFooterSeg fmtDate message) := by
  simp [_enrich_chunk, enrichHeaderSeg, enrichFooterSeg]

/-- **C6 (amended)**: stripping an enriched chunk the way the glue engine
does recovers the raw chunk, provided the only occurrences of the markers in
the enriched text are the inserted ones: the first header-marker occurrence
is the inserted one, no header-marker occurrence exists after it, and the
first footer-marker occurrence after the header marker is the inserted one.
(The chunk and subject merely not *containing* a marker is not enough: an
occurrence can straddle the boundary between the subject and the inserted
header marker — see the counterexample.) -/
theorem C6_enrichment_roundtrip_amended (fmtDate : Text → Text) (chunk : Text)
    (message : Message) (index total : Nat)
    (hhdr : findSub CHUNK_HEADER_SEPARATOR
        (_enrich_chunk fmtDate chunk message index total) =
      some (enrichHeaderSeg message).length)
    (hnohdr : hasSub CHUNK_HEADER_SEPARATOR
        (chunk ++ CHUNK_FOOTER_SEPARATOR ++ enrichFooterSeg fmtDate message) =
      false)
    (hftr : findSub CHUNK_FOOTER_SEPARATOR
        (chunk ++ CHUNK_FOOTER_SEPARATOR ++ enrichFooterSeg fmtDate message) =
      some chunk.length) :
    cleanChunk (_enrich_chunk fmtDate chunk message index total) =
      some chunk := by
  rw [enrich_chunk_decomp] at hhdr ⊢
  unfold cleanChunk splitSecond
  rw [hhdr, Option.map_some']
  have hdrop :
      (enrichHeaderSeg message ++ CHUNK_HEADER_SEPARATOR ++
          (chunk ++ CHUNK_FOOTER_SEPARATOR ++
            enrichFooterSeg fmtDate message)).drop
        ((enrichHeaderSeg message).length + CHUNK_HEADER_SEPARATOR.length) =
      chunk ++ CHUNK_FOOTER_SEPARATOR ++ enrichFooterSeg fmtDate message :=
    List.drop_left' (by simp)
  rw [hdrop, splitHead_of_not_has _ _ hnohdr]
  have hftr2 : findSub CHUNK_FOOTER_SEPARATOR
      (chunk ++ (CHUNK_FOOTER_SEPARATOR ++ enrichFooterSeg fmtDate message)) =
      some chunk.length := by
    rw [← List.append_assoc]
    exact hftr
  rw [List.append_assoc, splitHead_append _ _ _ hftr2]

/-- A message whose subject ends with a partial header marker: appending the
real header marker creates an earlier, straddling occurrence. -/
def trickyMessage : Message :=
  { id := "m2".toList
    threadId := "t2".toList
    internalDate := "1680000000000".toList
    headers := [⟨"Subject".toList, "X\n--DEBUT EXTRAIT--".toList⟩,
                ⟨"From".toList, "a@b.c".toList⟩,
                ⟨"To".toList, "d@e.f".toList⟩]
    bodyText := [] }

/-- Counterexample to C6 as stated: neither the subject
`"X\n--DEBUT EXTRAIT--"` nor the chunk `"hello"` contains either marker
string, yet stripping the enriched chunk as the glue engine does yields
`"--DEBUT EXTRAIT--\nhello"`, not `"hello"`: the first header-marker
occurrence straddles the subject/marker boundary. -/
theorem C6_enrichment_roundtrip_counterexample :
    (hasSub CHUNK_HEADER_SEPARATOR "X\n--DEBUT EXTRAIT--".toList = false ∧
      hasSub CHUNK_FOOTER_SEPARATOR "X\n--DEBUT EXTRAIT--".toList = false ∧
      hasSub CHUNK_HEADER_SEPARATOR "hello".toList = false ∧
      hasSub CHUNK_FOOTER_SEPARATOR "hello".toList = false) ∧
    cleanChunk (_enrich_chunk constDate "hello".toList trickyMessage 0 1) =
      some "--DEBUT EXTRAIT--\nhello".toList ∧
    ("--DEBUT EXTRAIT--\nhello".toList : Text) ≠ "hello".toList :=
  ⟨⟨by decide, by decide, by decide, by decide⟩, by decide, by decide⟩

/-- Witness for the amended C6 on a well-formed message: subject `"Hello"`,
chunk `"the chunk"`; stripping recovers the chunk exactly. -/
theorem C6_enrichment_roundtrip_amended_witness :
    (findSub CHUNK_HEADER_SEPARATOR
        (_enrich_chunk constDate "the chunk".toList witMessage 0 1) =
      some (enrichHeaderSeg witMessage).length ∧
      hasSub CHUNK_HEADER_SEPARATOR
        ("the chunk".toList ++ CHUNK_FOOTER_SEPARATOR ++
          enrichFooterSeg constDate witMessage) = false ∧
      findSub CHUNK_FOOTER_SEPARATOR
        ("the chunk".toList ++ CHUNK_FOOTER_SEPARATOR ++
          enrichFooterSeg constDate witMessage) =
        some ("the chunk".toList : Text).length) ∧
    cleanChunk (_enrich_chunk constDate "the chunk".toList witMessage 0 1) =
      some "the chunk".toList :=
  ⟨⟨by decide, by decide, by decide⟩,
    C6_enrichment_roundtrip_amended constDate "the chunk".toList witMessage 0 1
      (by decide) (by decide) (by decide)⟩

/-- Counterexample to C2 as stated: two accepted chunks share
`chunk_index = 0`, in rank order their bodies are `"b"` then `"a"`; a stable
tie-break would stitch `"b"` before `"a"`, but the code compares the
`(index, body)` tuples and outputs `"a"` before `"b"`. -/
theorem C2_stable_tie_counterexample :
    glue_chunks tenPerChar [mkEnriched "b".toList, mkEnriched "a".toList]
        [mdAt 0, mdAt 0] false 1000 "\n---\n".toList =
      some "a\n---\nb".toList ∧
    ("a\n---\nb".toList : Text) ≠ "b\n---\na".toList :=
  ⟨by decide, by decide⟩

/-- Counterexample to C8 as stated: the second ranked chunk is missing the
footer marker, yet `glue_chunks` succeeds instead of failing fast (its body
silently runs to the end of the chunk text). -/
theorem C8_failfast_counterexample :
    hasSub CHUNK_FOOTER_SEPARATOR noFooterChunk = false ∧
    glue_chunks tenPerChar [mkEnriched tinyBody, noFooterChunk]
        [mdAt 0, mdAt 1] false 1000 "\n---\n".toList =
      some (tinyBody ++ "\n---\n".toList ++ "y".toList) :=
  ⟨by decide, by decide⟩

/-- Witness for C5, at the spec's concrete scenario: 300 tokens,
`chunk_size = 256`, chunks 0 and 1 share `⌊256/8⌋ = 32` tokens. -/
theorem C5_chunk_overlap_witness :
    (0 < 256 ∧ 0 * (256 - 256 / 8) + 256 ≤ (List.range 300).length ∧
      (0 + 1) * (256 - 256 / 8) < (List.range 300).length) ∧
    (chunkTokens (List.range 300) 256 0).drop (256 - 256 / 8) =
      (chunkTokens (List.range 300) 256 (0 + 1)).take (256 / 8) :=
  ⟨⟨by norm_num, by simp, by simp⟩,
    (C5_chunk_overlap (List.range 300) 256 0 (by norm_num) (by simp)
      (by simp)).2.2⟩

end Bip
